import Mathlib

/-!
Verification of the calbar calendar aggregator (github.com/cpuguy83/calbar)
against its natural-language specification.

The Go source is shallowly embedded:
* `time.Time` instants and `time.Duration` values are both modelled as `Int`
  nanoseconds (Go durations are int64 nanoseconds; instants are measured in
  nanoseconds of the local epoch, so "local midnight" is divisibility by
  `nsPerDay`).
* Go slices become `List`, Go maps become association lists with
  last-write-wins insertion, matching Go map lookup of the latest write.
* `sort.Slice` (an unstable sort) is modelled by `List.insertionSort`;
  theorems about sort output only use "is a permutation sorted by start",
  which is the full guarantee an unstable sort gives.
* Concurrency (the fan-out of `Syncer.Sync`) is modelled by quantifying over
  the arrival order of per-source results on the result channel.

The file is organised as: all definitions first, then all theorems.
-/

namespace Calbar

/-! # Definitions -/

/-! ## Time constants (Go `time` package, nanoseconds) -/

def nsPerSecond : Int := 1000000000
def nsPerMinute : Int := 60 * nsPerSecond
def nsPerHour : Int := 60 * nsPerMinute
def nsPerDay : Int := 24 * nsPerHour

/-! ## Event model (internal/calendar/event.go, plus the `Stale` flag set by
cmd/calbar/main.go's staleness tracking) -/

structure Event where
  uid : String
  summary : String
  description : String
  location : String
  start : Int
  «end» : Int
  allDay : Bool
  organizer : String
  source : String
  url : String
  stale : Bool
  deriving Repr, DecidableEq

/-- A handy all-defaults event for concrete test inputs. -/
def Event.mk0 : Event :=
  ⟨"", "", "", "", 0, 0, false, "", "", "", false⟩

/-! ## Merge (internal/calendar/merge.go)

`Merge` concatenates event sets and sorts ascending by start time.  The Go
code uses `sort.Slice` with comparator `all[i].Start.Before(all[j].Start)`,
an unstable sort; any ascending-by-start permutation is a faithful model, we
use insertion sort. -/

def startLE (a b : Event) : Prop := a.start ≤ b.start

instance : DecidableRel startLE := fun a b => inferInstanceAs (Decidable (a.start ≤ b.start))

instance : IsTotal Event startLE := ⟨fun a b => Int.le_total a.start b.start⟩

instance : IsTrans Event startLE := ⟨fun _ _ _ h1 h2 => le_trans h1 h2⟩

def Merge (events : List Event) : List Event :=
  List.insertionSort startLE events

/-! ## Staleness tracking: `onSyncComplete` (cmd/calbar/main.go lines 372-409)

The callback owns `a.events`, `a.lastSync` and `a.lastSyncErr`.  Errors are
modelled as `Option String` (`none` = nil). -/

structure SyncView where
  events : List Event
  lastSync : Int
  lastSyncErr : Option String
  deriving Repr, DecidableEq

/-- Embeds `App.onSyncComplete`: on a fatal error keep the stored events and
record the error; otherwise retain prior events of failed sources as stale,
tag the fresh events non-stale, merge/sort, and clear the error.  `now`
stands for the `time.Now()` read that sets `a.lastSync`. -/
def onSyncComplete (st : SyncView) (events : List Event)
    (failedSources : List String) (err : Option String) (now : Int) : SyncView :=
  match err with
  | some e =>
      -- Keep old events on complete failure
      { st with lastSyncErr := some e, lastSync := now }
  | none =>
      -- Keep old events from failed sources, marking them as stale
      let kept := (st.events.filter (fun e => failedSources.contains e.source)).map
        (fun e => { e with stale := true })
      -- Add new events from successful sources (not stale)
      let fresh := events.map (fun e => { e with stale := false })
      { events := Merge (kept ++ fresh), lastSync := now, lastSyncErr := none }

/-! ## Syncer fan-in (internal/sync/sync.go lines 108-135)

Each fetch goroutine reports one `result` on the channel; the collection
loop runs over them in arrival order.  We model a per-source report and the
deterministic fold the loop performs over an arbitrary arrival order. -/

/-- One message on the Syncer's result channel: either a successful fetch
(post-filter events) or a fetch error, tagged with the source name. -/
inductive SourceReport where
  | ok (name : String) (events : List Event)
  | fail (name : String) (err : String)
  deriving Repr, DecidableEq

def SourceReport.isOk : SourceReport → Bool
  | .ok _ _ => true
  | .fail _ _ => false

/-- The collection loop of `Syncer.Sync`: accumulate events of successful
sources, record failed source names, and remember the first error seen. -/
def collectResults : List SourceReport → List Event × List String × Option String
  | [] => ([], [], none)
  | r :: rest =>
      let (evs, failed, firstErr) := collectResults rest
      match r with
      | .ok _ events => (events ++ evs, failed, firstErr)
      | .fail name err => (evs, name :: failed, some err)

/-- The tail of `Syncer.Sync` after collection: merge and sort, then return
the error only if the merged list is empty and some error occurred;
otherwise report partial success.  The triple is
(returned events, failed source names, returned error). -/
def syncOutcome (reports : List SourceReport) :
    List Event × List String × Option String :=
  let (allEvents, failedSources, firstErr) := collectResults reports
  let merged := Merge allEvents
  if merged.isEmpty ∧ firstErr.isSome then
    ([], failedSources, firstErr)
  else
    (merged, failedSources, none)

/-- Events contributed by successful sources, in arrival order. -/
def okEvents : List SourceReport → List Event
  | [] => []
  | .ok _ evs :: rest => evs ++ okEvents rest
  | .fail _ _ :: rest => okEvents rest

/-- Names of the failed sources, in arrival order. -/
def failedNames : List SourceReport → List String
  | [] => []
  | .ok _ _ :: rest => failedNames rest
  | .fail name _ :: rest => name :: failedNames rest

/-- The first error reported on the channel, if any. -/
def firstError : List SourceReport → Option String
  | [] => none
  | .ok _ _ :: rest => firstError rest
  | .fail _ err :: _ => some err

/-! ## Filter engine (internal/filter/filter.go)

A compiled rule carries its match type and pattern; regex rules embed the
compiled regex, modelled by its `MatchString` function.  Patterns of
case-insensitive non-regex rules are already lowercased by `compileRule`,
so evaluation only lowercases the field value.  Go's `MatchPrefix` and
`MatchSuffix` (strings.HasPrefix / strings.HasSuffix) are named
`starts`/`ends` here to avoid clashing with Lean keywords. -/

inductive Matcher where
  | contains (pat : String)
  | exact (pat : String)
  | starts (pat : String)
  | ends (pat : String)
  | regex (matchString : String → Bool)

def Matcher.isRegexType : Matcher → Bool
  | .regex _ => true
  | _ => false

structure FilterRule where
  field : String
  matcher : Matcher
  caseInsensitive : Bool

/-- Go `filter.Filter` (named `EventFilter` to avoid Mathlib's `Filter`). -/
structure EventFilter where
  mode : String
  includeRules : List FilterRule
  excludeRules : List FilterRule

/-- Go `strings.Contains`. -/
def strContains (s pat : String) : Bool :=
  decide (pat.toList <:+: s.toList)

/-- `rule.getFieldValue` from internal/filter/filter.go. -/
def getFieldValue (r : FilterRule) (e : Event) : String :=
  match r.field with
  | "title" | "summary" => e.summary
  | "organizer" => e.organizer
  | "source" | "calendar" => e.source
  | "description" => e.description
  | "location" => e.location
  | _ => ""

/-- `rule.matches` from internal/filter/filter.go. -/
def ruleMatches (r : FilterRule) (e : Event) : Bool :=
  let v0 := getFieldValue r e
  -- Apply case insensitivity for non-regex matches
  let value := if r.caseInsensitive && !r.matcher.isRegexType then v0.toLower else v0
  match r.matcher with
  | .regex re => re value
  | .exact pat => value == pat
  | .starts pat => value.startsWith pat
  | .ends pat => value.endsWith pat
  | .contains pat => strContains value pat

/-- `Filter.matchesExclude`: any exclude rule matching means exclude. -/
def matchesExclude (f : EventFilter) (e : Event) : Bool :=
  f.excludeRules.any (fun r => ruleMatches r e)

/-- `Filter.matchesInclude`: in mode "and" all include rules must match,
otherwise (OR mode) any rule must match. -/
def matchesInclude (f : EventFilter) (e : Event) : Bool :=
  if f.mode == "and" then
    f.includeRules.all (fun r => ruleMatches r e)
  else
    f.includeRules.any (fun r => ruleMatches r e)

/-- `Filter.Apply`: no rules passes everything through; otherwise keep the
events that match no exclude rule and (if include rules exist) the include
rules. -/
def applyFilter (f : EventFilter) (events : List Event) : List Event :=
  if f.includeRules.isEmpty && f.excludeRules.isEmpty then events
  else
    events.filter (fun e =>
      !matchesExclude f e && (f.includeRules.isEmpty || matchesInclude f e))

/-- Written from the words of the spec (for claim C7): exclusion wins; with
no include rules the event is accepted; otherwise mode "and" demands every
include rule and mode "or" at least one. -/
def acceptSpec (f : EventFilter) (e : Event) : Bool :=
  if f.excludeRules.any (fun r => ruleMatches r e) then false
  else if f.includeRules.isEmpty then true
  else if f.mode == "and" then f.includeRules.all (fun r => ruleMatches r e)
  else f.includeRules.any (fun r => ruleMatches r e)

/-- Concrete filter of spec scenario 4: exclude title containing "Standup",
include organizer ending "@co.com", mode "or". -/
def standupFilter : EventFilter :=
  { mode := "or",
    includeRules := [⟨"organizer", Matcher.ends "@co.com", false⟩],
    excludeRules := [⟨"title", Matcher.contains "Standup", false⟩] }

/-- Concrete event of spec scenario 4. -/
def standupEvent : Event :=
  { Event.mk0 with summary := "Morning Standup", organizer := "boss@co.com" }

/-! ## Hidden-event registry (cmd/calbar/main.go lines 263-369) -/

structure HiddenEntry where
  uid : String
  hidden : Int
  deriving Repr, DecidableEq

/-- The `eventByUID` map built by `gcHiddenEntries` (and `hiddenEvents`):
`for _, e := range events { m[e.UID] = e }`, so a lookup returns the last
event in the slice with that uid. -/
def eventByUID (events : List Event) (uid : String) : Option Event :=
  match events with
  | [] => none
  | e :: rest =>
      match eventByUID rest uid with
      | some x => some x
      | none => if e.uid == uid then some e else none

/-- The keep-condition of `gcHiddenEntries`'s `slices.DeleteFunc`: an entry
survives iff its uid is still in the events snapshot and the event has not
ended more than the grace period ago. -/
def keepHidden (events : List Event) (grace now : Int) (h : HiddenEntry) : Bool :=
  match eventByUID events h.uid with
  | none => false
  | some e => !decide (e.«end» + grace < now)

/-- `App.gcHiddenEntries` (main.go lines 343-369). -/
def gcHiddenEntries (events : List Event) (grace now : Int)
    (entries : List HiddenEntry) : List HiddenEntry :=
  if entries.isEmpty then entries
  else entries.filter (keepHidden events grace now)

/-- `App.hideEvent` (main.go lines 264-282): append `(uid, now)` unless
already present, then GC. -/
def hideEvent (events : List Event) (grace now : Int)
    (entries : List HiddenEntry) (uid : String) : List HiddenEntry :=
  let entries' :=
    if entries.any (fun e => e.uid == uid) then entries
    else entries ++ [⟨uid, now⟩]
  gcHiddenEntries events grace now entries'

/-- `App.unhideEvent` (main.go lines 285-295): drop entries with the uid,
then GC. -/
def unhideEvent (events : List Event) (grace now : Int)
    (entries : List HiddenEntry) (uid : String) : List HiddenEntry :=
  gcHiddenEntries events grace now (entries.filter (fun e => !(e.uid == uid)))

/-- The full app state touched by the sync callback.  `onSyncComplete`
(main.go 372-413) only rewrites the event snapshot and the sync error; it
neither touches `hiddenEntries` nor calls `gcHiddenEntries`. -/
structure AppState where
  view : SyncView
  hiddenEntries : List HiddenEntry
  deriving Repr, DecidableEq

def appOnSyncComplete (st : AppState) (events : List Event)
    (failedSources : List String) (err : Option String) (now : Int) : AppState :=
  { view := onSyncComplete st.view events failedSources err now,
    hiddenEntries := st.hiddenEntries }

/-! ## Local time-of-day decomposition and the effectively-all-day rule

Instants are nanoseconds of the local epoch, so the Go accessors
`Hour()/Minute()/Second()/Nanosecond()` (in the local zone) decompose
`t mod nsPerDay`. -/

def nsOfDay (t : Int) : Int := t % nsPerDay
def hourOf (t : Int) : Int := nsOfDay t / nsPerHour
def minuteOf (t : Int) : Int := nsOfDay t / nsPerMinute % 60
def secondOf (t : Int) : Int := nsOfDay t / nsPerSecond % 60
def nanosOf (t : Int) : Int := nsOfDay t % nsPerSecond

/-- Modelled from the spec: `isEffectivelyAllDay` — its definition is not
among the provided source files (only its test vectors,
`TestIsEffectivelyAllDay`, and its callers in `parseEvent` are).  Per the
spec it returns true iff, in local time, both instants have zero
time-of-day components (H=M=S=ns=0) and `end > start`.  The model is
validated against all nine in-repo test vectors below. -/
def isEffectivelyAllDay (s e : Int) : Bool :=
  nsOfDay s == 0 && nsOfDay e == 0 && s < e

/-- Builds a local instant from a day index and time-of-day components. -/
def mkLocal (days h m sec ns : Int) : Int :=
  days * nsPerDay + h * nsPerHour + m * nsPerMinute + sec * nsPerSecond + ns

/-! ## ICS event normalisation (src/unnamed/part_004, `parseEvent`) -/

/-- The non-recurring branch of `parseEvent`: set start, end = start +
duration, and re-derive the all-day flag. -/
def mkNonRecurring (base : Event) (isAllDayExplicit : Bool)
    (startTime duration : Int) : Event :=
  { base with
    start := startTime,
    «end» := startTime + duration,
    allDay := isAllDayExplicit || isEffectivelyAllDay startTime (startTime + duration) }

/-- A recurrence series as consumed by the normalizer: DTSTART plus a fixed
period and an occurrence count (the simple shape of an RRULE the core relies
on; per the spec the core consumes `occurrences_in_range` and does not
reimplement RFC 5545). -/
structure RecurSeries where
  dtstart : Int
  periodNs : Int
  count : Nat
  deriving Repr, DecidableEq

def occurrences (r : RecurSeries) : List Int :=
  (List.range r.count).map (fun k => r.dtstart + k * r.periodNs)

/-- The third-party `rset.Between(a, b, true)`: occurrences `t` of the
series with `a ≤ t ≤ b`, bounds inclusive. -/
def rsetBetween (r : RecurSeries) (a b : Int) : List Int :=
  (occurrences r).filter (fun t => decide (a ≤ t) && decide (t ≤ b))

/-- One expanded occurrence (`parseEvent`, recurring branch): clone the
series fields, override start, end = start + duration, re-derive all-day,
and rewrite the uid to `"{series_uid}_{start_unix_seconds}"`
(`fmt.Sprintf("%s_%d", base.UID, occ.Unix())`). -/
def mkOccurrence (base : Event) (isAllDayExplicit : Bool)
    (duration occ : Int) : Event :=
  { base with
    start := occ,
    «end» := occ + duration,
    allDay := isAllDayExplicit || isEffectivelyAllDay occ (occ + duration),
    uid := base.uid ++ "_" ++ toString (occ / nsPerSecond) }

/-- The recurring branch of `parseEvent` (part_004 lines 636-657): look
back by the event's own duration and expand every occurrence between
`now − duration` and the fetch end instant, inclusive. -/
def parseEventRecurring (base : Event) (isAllDayExplicit : Bool)
    (duration now fetchEnd : Int) (r : RecurSeries) : List Event :=
  let rangeStart := now - duration
  let rangeEnd := fetchEnd
  (rsetBetween r rangeStart rangeEnd).map (mkOccurrence base isAllDayExplicit duration)

/-! ## URL classifier (internal/links/detector.go)

The five meeting-link regexes are concatenations of literals, one optional
character and greedy character classes, so they are embedded as atom lists
and matched by position-set NFA simulation.  `FindString` is modelled as
leftmost-longest, which coincides with Go's leftmost-first semantics on
these patterns (greedy atoms only, no alternation). -/

/-- Regex `\w`: `[0-9A-Za-z_]`. -/
def isWordChar (c : Char) : Bool := c.isAlphanum || c == '_'

inductive Atom where
  | lit (c : Char)
  | opt (c : Char)
  | star (cls : Char → Bool)
  | plus (cls : Char → Bool)

abbrev RePattern := List Atom

/-- Length of the class run starting at the head of the suffix. -/
def clsRun (cls : Char → Bool) (s : List Char) : Nat :=
  (s.takeWhile cls).length

/-- All end positions reachable from the given positions by one atom. -/
def stepAtom (s : List Char) (poss : List Nat) (a : Atom) : List Nat :=
  match a with
  | .lit c => poss.filterMap (fun p =>
      match s.drop p with
      | c' :: _ => if c' == c then some (p + 1) else none
      | [] => none)
  | .opt c => poss.flatMap (fun p =>
      match s.drop p with
      | c' :: _ => if c' == c then [p, p + 1] else [p]
      | [] => [p])
  | .star cls => poss.flatMap (fun p =>
      (List.range (clsRun cls (s.drop p) + 1)).map (fun k => p + k))
  | .plus cls => poss.flatMap (fun p =>
      (List.range (clsRun cls (s.drop p))).map (fun k => p + k + 1))

/-- End positions of matches of the pattern starting at `start`. -/
def matchEnds (pat : RePattern) (s : List Char) (start : Nat) : List Nat :=
  pat.foldl (stepAtom s) [start]

/-- The longest match starting at `start`, if any. -/
def matchAtPos (pat : RePattern) (s : List Char) (start : Nat) : Option Nat :=
  (matchEnds pat s start).max?

/-- Leftmost match: smallest start position with a match, longest end. -/
def findFirst (pat : RePattern) (s : List Char) : Option (Nat × Nat) :=
  (List.range (s.length + 1)).findSome? (fun st =>
    match matchAtPos pat s st with
    | some e => some (st, e)
    | none => none)

/-- Go `pattern.FindString(s)` ("" when there is no match). -/
def findString (pat : RePattern) (s : String) : String :=
  match findFirst pat s.toList with
  | some (st, e) => String.mk ((s.toList.drop st).take (e - st))
  | none => ""

/-- Go `pattern.MatchString(s)`. -/
def matchString (pat : RePattern) (s : String) : Bool :=
  (findFirst pat s.toList).isSome

def lits (s : String) : RePattern := s.toList.map Atom.lit

/-- `https?://` -/
def schemeP : RePattern := lits "http" ++ [Atom.opt 's'] ++ lits "://"

/-- Zoom: `https?://[\w.-]*zoom\.us/j/[\w?=&-]+` -/
def zoomPattern : RePattern :=
  schemeP ++ [Atom.star (fun c => isWordChar c || c == '.' || c == '-')] ++
    lits "zoom.us/j/" ++
    [Atom.plus (fun c => isWordChar c || c == '?' || c == '=' || c == '&' || c == '-')]

/-- Teams: scheme, the literal teams.microsoft.com meetup-join path, then
one or more of word chars, percent, slash, dash. -/
def teamsPattern : RePattern :=
  schemeP ++ lits "teams.microsoft.com/l/meetup-join/" ++
    [Atom.plus (fun c => isWordChar c || c == '%' || c == '/' || c == '-')]

/-- Meet: `https?://meet\.google\.com/[\w-]+` -/
def meetPattern : RePattern :=
  schemeP ++ lits "meet.google.com/" ++
    [Atom.plus (fun c => isWordChar c || c == '-')]

/-- Webex: scheme, a run of word chars, dots and dashes, the literal
.webex.com/, then one or more of word chars, dot, slash, dash. -/
def webexPattern : RePattern :=
  schemeP ++ [Atom.star (fun c => isWordChar c || c == '.' || c == '-')] ++
    lits ".webex.com/" ++
    [Atom.plus (fun c => isWordChar c || c == '.' || c == '/' || c == '-')]

/-- Generic fallback: `https?://[^\s<>"]+` -/
def genericPattern : RePattern :=
  schemeP ++ [Atom.plus (fun c => !(c.isWhitespace || c == '<' || c == '>' || c == '\x22'))]

/-- The ordered pattern list of internal/links/detector.go (generic last). -/
def linkPatterns : List RePattern :=
  [zoomPattern, teamsPattern, meetPattern, webexPattern, genericPattern]

/-- The first pattern in the list with a non-empty `FindString` result
(the inner loop of `detectInText` over the service patterns). -/
def firstNonEmptyMatch : List RePattern → String → String
  | [], _ => ""
  | p :: rest, text =>
      let m := findString p text
      if m != "" then m else firstNonEmptyMatch rest text

/-- `detectInText`: service patterns (all but the last) first, then the
generic pattern as fallback, on the same text. -/
def detectInText (text : String) : String :=
  if text == "" then ""
  else
    let m := firstNonEmptyMatch linkPatterns.dropLast text
    if m != "" then m
    -- Fall back to generic URL pattern (the last entry of the list)
    else findString genericPattern text

/-- `Detect`: location first, then description. -/
def Detect (location description : String) : String :=
  let link := detectInText location
  if link != "" then link else detectInText description

/-- `DetectFromEvent`: accept the explicit URL field only if it matches a
service (non-generic) pattern, otherwise fall back to `Detect`. -/
def DetectFromEvent (location description url : String) : String :=
  if url != "" && linkPatterns.dropLast.any (fun p => matchString p url) then url
  else Detect location description

/-! ## Notifications (internal/notify/notify.go `Send`; cmd/calbar/main.go
`checkNotifications` and `sendNotification`, lines 527-611)

Go keys `notifiedEvents` by the string `uid + "-" + threshold.String()`;
since `Duration.String()` of a non-negative duration never contains a dash,
that key is in bijection with the pair (uid, threshold), which the model
uses directly.  Maps are association lists, newest entry first (Go map
semantics: the latest write wins).  The D-Bus `Notify` call is abstracted
by a parameter `bus` mapping the index of the call to `some id` (success)
or `none` (error).  `busCalls` and the per-tick send list are observations
of the execution used to state theorems, not Go state. -/

def lookupKey {α β : Type} [DecidableEq α] : List (α × β) → α → Option β
  | [], _ => none
  | (k, v) :: rest, k' => if k = k' then some v else lookupKey rest k'

structure NotifState where
  notified : List (String × Int)
  busCount : Nat
  notificationIDs : List (Nat × String)
  busCalls : List String
  deriving Repr, DecidableEq

def NotifState.empty : NotifState := ⟨[], 0, [], []⟩

/-- `Notifier.Send`: a notification with a non-empty event uid that was
notified less than one minute ago is swallowed (id 0, nil error, no bus
call); otherwise the last-notified time is recorded (before the bus call)
and the bus is invoked.  Returns (id, error-occurred, new state). -/
def notifierSend (bus : Nat → Option Nat) (now : Int) (uid : String)
    (st : NotifState) : Nat × Bool × NotifState :=
  -- Check if we already notified for this event recently
  let suppressed :=
    uid != "" &&
      (match lookupKey st.notified uid with
       | some last => decide (now - last < nsPerMinute)
       | none => false)
  if suppressed then (0, false, st)
  else
    let notified' := if uid != "" then (uid, now) :: st.notified else st.notified
    match bus st.busCount with
    | some id =>
        (id, false,
          { st with notified := notified', busCount := st.busCount + 1,
                    busCalls := st.busCalls ++ [uid] })
    | none =>
        (0, true,
          { st with notified := notified', busCount := st.busCount + 1,
                    busCalls := st.busCalls ++ [uid] })

/-- `App.sendNotification`: detect a meeting link, send via the notifier
(urgency and body do not influence any modelled state), swallow send
errors, and on success with a link record id ↦ link. -/
def sendNotification (bus : Nat → Option Nat) (now : Int) (e : Event)
    (startsIn : Int) (st : NotifState) : NotifState :=
  let meetingLink := DetectFromEvent e.location e.description e.url
  let res := notifierSend bus now e.uid st
  let id := res.1
  let errOccurred := res.2.1
  let st' := res.2.2
  if errOccurred then st'
  else if meetingLink != "" && id != 0 then
    { st' with notificationIDs := (id, meetingLink) :: st'.notificationIDs }
  else st'

structure TickState where
  tickets : List ((String × Int) × Int)
  ns : NotifState
  deriving Repr, DecidableEq

def TickState.empty : TickState := ⟨[], NotifState.empty⟩

/-- The inner loop of `checkNotifications` over the configured thresholds
for one event: inside the window `(T − 1m, T]` and with no ticket for
(uid, T), send and record the ticket.  Also returns the keys sent. -/
def thresholdLoop (bus : Nat → Option Nat) (now : Int) (e : Event)
    (startsIn : Int) : List Int → TickState → TickState × List (String × Int)
  | [], st => (st, [])
  | before :: rest, st =>
      if decide (startsIn ≤ before) && decide (startsIn > before - nsPerMinute) then
        let key := (e.uid, before)
        match lookupKey st.tickets key with
        | some _ => thresholdLoop bus now e startsIn rest st
        | none =>
            let ns' := sendNotification bus now e startsIn st.ns
            let st' : TickState := { tickets := ((key, now)) :: st.tickets, ns := ns' }
            let res := thresholdLoop bus now e startsIn rest st'
            (res.1, key :: res.2)
      else thresholdLoop bus now e startsIn rest st

/-- The outer loop of `checkNotifications` over the visible events: skip
events past end + grace and events already started. -/
def eventsLoop (bus : Nat → Option Nat) (now grace : Int)
    (beforeList : List Int) : List Event → TickState → TickState × List (String × Int)
  | [], st => (st, [])
  | e :: rest, st =>
      if decide (e.«end» + grace < now) then
        eventsLoop bus now grace beforeList rest st
      else
        let startsIn := e.start - now
        if decide (startsIn < 0) then eventsLoop bus now grace beforeList rest st
        else
          let r1 := thresholdLoop bus now e startsIn beforeList st
          let r2 := eventsLoop bus now grace beforeList rest r1.1
          (r2.1, r1.2 ++ r2.2)

/-- The cleanup at the end of `checkNotifications`: drop tickets recorded
more than 24 hours ago. -/
def pruneTickets (now : Int) (tickets : List ((String × Int) × Int)) :
    List ((String × Int) × Int) :=
  tickets.filter (fun kv => !decide (kv.2 < now - nsPerDay))

/-- One 30-second notification tick (`App.checkNotifications`): the loops
above, then pruning.  Returns (new state, keys sent this tick, whether the
pruning removed anything — an observation used by theorems). -/
def checkNotifications (bus : Nat → Option Nat) (enabled : Bool)
    (beforeList : List Int) (grace now : Int) (events : List Event)
    (st : TickState) : TickState × List (String × Int) × Bool :=
  if !enabled then (st, [], false)
  else
    let r := eventsLoop bus now grace beforeList events st
    let pruned := pruneTickets now r.1.tickets
    (⟨pruned, r.1.ns⟩, r.2, decide (pruned ≠ r.1.tickets))

/-- A run of successive notification ticks, each supplying its `now` and
its visible-events snapshot.  Accumulates the sent keys and whether any
tick's pruning removed a ticket. -/
def runTicks (bus : Nat → Option Nat) (enabled : Bool) (beforeList : List Int)
    (grace : Int) : List (Int × List Event) → TickState →
      TickState × List (String × Int) × Bool
  | [], st => (st, [], false)
  | (now, events) :: rest, st =>
      let r := checkNotifications bus enabled beforeList grace now events st
      let r' := runTicks bus enabled beforeList grace rest r.1
      (r'.1, r.2.1 ++ r'.2.1, r.2.2 || r'.2.2)

/-! ## Concrete fixtures for witnesses and counterexamples -/

/-- Spec scenario 5: event starting 14m30s after the first tick. -/
def evScenario5 : Event :=
  { Event.mk0 with
    uid := "E",
    start := 870 * nsPerSecond,
    «end» := 870 * nsPerSecond + nsPerHour }

/-- Event starting 14m40s after the first tick (still inside the 15m
window on the following tick 30 seconds later). -/
def evC4 : Event :=
  { Event.mk0 with
    uid := "E",
    start := 880 * nsPerSecond,
    «end» := 880 * nsPerSecond + nsPerHour }

/-- Event starting 14m15s in, inside the windows of both the 15m and the
14m30s thresholds at once. -/
def evC10 : Event :=
  { Event.mk0 with
    uid := "E",
    start := 855 * nsPerSecond,
    «end» := 855 * nsPerSecond + nsPerHour }

/-- A bus on which every Notify call fails. -/
def busFail : Nat → Option Nat := fun _ => none

/-! # Theorems -/

/-! ## Generic helper lemmas -/

theorem Merge_perm (events : List Event) : List.Perm (Merge events) events :=
  List.perm_insertionSort startLE events

theorem Merge_sorted (events : List Event) : (Merge events).Sorted startLE :=
  List.sorted_insertionSort startLE events

theorem collectResults_eq (rs : List SourceReport) :
    collectResults rs = (okEvents rs, failedNames rs, firstError rs) := by
  induction rs with
  | nil => rfl
  | cons r rest ih =>
      cases r with
      | ok n evs => simp [collectResults, okEvents, failedNames, firstError, ih]
      | fail n err => simp [collectResults, okEvents, failedNames, firstError, ih]

theorem Merge_eq_nil_iff (l : List Event) : Merge l = [] ↔ l = [] := by
  constructor
  · intro h
    have := Merge_perm l
    rw [h] at this
    exact (List.Perm.nil_eq this).symm
  · intro h
    subst h
    rfl

theorem firstError_isSome_iff (rs : List SourceReport) :
    (firstError rs).isSome ↔ ∃ r ∈ rs, r.isOk = false := by
  induction rs with
  | nil => simp [firstError]
  | cons r rest ih =>
      cases r with
      | ok n evs => simp [firstError, SourceReport.isOk, ih]
      | fail n err => simp [firstError, SourceReport.isOk]

theorem okEvents_eq_nil_iff (rs : List SourceReport) :
    okEvents rs = [] ↔ ∀ r ∈ rs, ∀ n l, r = SourceReport.ok n l → l = [] := by
  induction rs with
  | nil => simp [okEvents]
  | cons r rest ih =>
      cases r with
      | ok n evs =>
          simp only [okEvents, List.append_eq_nil, ih, List.mem_cons]
          constructor
          · rintro ⟨hevs, hrest⟩ r hr n' l' heq
            rcases hr with rfl | hr
            · cases heq; exact hevs
            · exact hrest r hr n' l' heq
          · intro h
            refine ⟨h _ (Or.inl rfl) n evs rfl, fun r hr n' l' heq => h r (Or.inr hr) n' l' heq⟩
      | fail n err =>
          simp only [okEvents, ih, List.mem_cons]
          constructor
          · intro h r hr n' l' heq
            rcases hr with rfl | hr
            · cases heq
            · exact h r hr n' l' heq
          · intro h r hr n' l' heq
            exact h r (Or.inr hr) n' l' heq

/-! ## Claim C1 -/

/-- C1: for every sync result delivered to the application loop: with a
non-nil error the stored snapshot is unchanged and `lastSyncErr` is set to
that error; otherwise the new snapshot is the prior events of failed
sources (stale := true) concatenated with the fresh events (stale := false),
merged and sorted ascending by start, and `lastSyncErr` is cleared. -/
theorem onSyncComplete_spec (st : SyncView) (events : List Event)
    (failedSources : List String) (now : Int) :
    (∀ m, onSyncComplete st events failedSources (some m) now =
       { events := st.events, lastSync := now, lastSyncErr := some m }) ∧
    (List.Perm (onSyncComplete st events failedSources none now).events
        ((st.events.filter (fun e => failedSources.contains e.source)).map
            (fun e => { e with stale := true }) ++
         events.map (fun e => { e with stale := false })) ∧
     (onSyncComplete st events failedSources none now).events.Sorted startLE ∧
     (onSyncComplete st events failedSources none now).lastSyncErr = none) := by
  refine ⟨fun m => rfl, ?_, ?_, rfl⟩
  · exact Merge_perm _
  · exact Merge_sorted _

/-! ## Claim C2 -/

/-- C2 counterexample: with one source succeeding (with zero post-filter
events) and one source failing, `Sync` still surfaces the error, so the
round's error is not surfaced "only when every source failed". -/
theorem sync_error_despite_success :
    (syncOutcome [SourceReport.ok "A" [], SourceReport.fail "B" "boom"]).2.2
      = some "boom" ∧
    (SourceReport.ok "A" ([] : List Event)).isOk = true := by
  decide

/-- C2 amended: `Sync` surfaces the round's first error exactly when some
source failed and every successful source contributed zero (post-filter)
events; otherwise it returns the merged events plus the failed-source names
with a nil error. -/
theorem sync_partial_success (rs : List SourceReport) :
    ((syncOutcome rs).2.2.isSome ↔
       ((∃ r ∈ rs, r.isOk = false) ∧
        ∀ r ∈ rs, ∀ n l, r = SourceReport.ok n l → l = [])) ∧
    (syncOutcome rs).2.1 = failedNames rs ∧
    ((syncOutcome rs).2.2 = none →
       List.Perm (syncOutcome rs).1 (okEvents rs) ∧
       (syncOutcome rs).1.Sorted startLE) := by
  have hout : syncOutcome rs =
      (if (Merge (okEvents rs)).isEmpty ∧ (firstError rs).isSome then
        ([], failedNames rs, firstError rs)
      else
        (Merge (okEvents rs), failedNames rs, none)) := by
    simp only [syncOutcome, collectResults_eq]
  by_cases h : (Merge (okEvents rs)).isEmpty ∧ (firstError rs).isSome
  · rw [hout, if_pos h]
    have hnil : okEvents rs = [] := by
      have := h.1
      rw [List.isEmpty_iff] at this
      exact (Merge_eq_nil_iff _).mp this
    refine ⟨?_, rfl, ?_⟩
    · simp only [h.2]
      constructor
      · intro _
        exact ⟨(firstError_isSome_iff rs).mp h.2, (okEvents_eq_nil_iff rs).mp hnil⟩
      · intro _
        trivial
    · intro habs
      have hnone : firstError rs = none := habs
      rw [hnone] at h
      simp at h
  · rw [hout, if_neg h]
    refine ⟨?_, rfl, fun _ => ⟨Merge_perm _, Merge_sorted _⟩⟩
    simp only [Option.isSome_none, Bool.false_eq_true, false_iff]
    rintro ⟨hfail, hok⟩
    apply h
    constructor
    · rw [List.isEmpty_iff, Merge_eq_nil_iff]
      exact (okEvents_eq_nil_iff rs).mpr hok
    · exact (firstError_isSome_iff rs).mpr hfail

/-- C2 amended witness: a single successful source with one event makes
the round succeed with a nil error and a sorted permutation of its
events. -/
theorem sync_partial_success_witness :
    (syncOutcome [SourceReport.ok "A" [Event.mk0]]).2.2 = none ∧
    List.Perm (syncOutcome [SourceReport.ok "A" [Event.mk0]]).1
      (okEvents [SourceReport.ok "A" [Event.mk0]]) ∧
    (syncOutcome [SourceReport.ok "A" [Event.mk0]]).1.Sorted startLE :=
  ⟨by decide,
   ((sync_partial_success [SourceReport.ok "A" [Event.mk0]]).2.2 (by decide)).1,
   ((sync_partial_success [SourceReport.ok "A" [Event.mk0]]).2.2 (by decide)).2⟩

/-! ## Claim C7 -/

/-- C7: for every event and compiled filter (mode "or" or "and"), `Apply`
keeps exactly the events accepted by the spec's rule: any exclude match
rejects; otherwise no include rules accepts; otherwise mode "or" needs one
include match and mode "and" all of them. -/
theorem applyFilter_spec (f : EventFilter) (events : List Event)
    (hmode : f.mode = "or" ∨ f.mode = "and") :
    applyFilter f events = events.filter (acceptSpec f) := by
  unfold applyFilter
  by_cases hempty : (f.includeRules.isEmpty && f.excludeRules.isEmpty) = true
  · rw [if_pos hempty]
    rw [Bool.and_eq_true] at hempty
    symm
    apply List.filter_eq_self.mpr
    intro e _
    have hex : f.excludeRules = [] := List.isEmpty_iff.mp hempty.2
    simp [acceptSpec, hex, hempty.1]
  · rw [if_neg hempty]
    apply List.filter_congr
    intro e _
    simp only [acceptSpec, matchesExclude, matchesInclude]
    cases hex : f.excludeRules.any (fun r => ruleMatches r e) <;>
      cases hinc : f.includeRules.isEmpty <;>
        simp [hex, hinc]

/-- C7 witness: the scenario-4 filter and event discharge the mode
hypothesis; exclusion wins over the matching include rule. -/
theorem applyFilter_spec_witness :
    (standupFilter.mode = "or" ∨ standupFilter.mode = "and") ∧
    applyFilter standupFilter [standupEvent] =
      List.filter (acceptSpec standupFilter) [standupEvent] ∧
    applyFilter standupFilter [standupEvent] = [] :=
  ⟨Or.inl rfl,
   applyFilter_spec standupFilter [standupEvent] (Or.inl rfl),
   by decide⟩

/-! ## Claim C8 -/

theorem gc_eq_filter (events : List Event) (grace now : Int)
    (entries : List HiddenEntry) :
    gcHiddenEntries events grace now entries =
      entries.filter (keepHidden events grace now) := by
  cases entries with
  | nil => rfl
  | cons h t => simp [gcHiddenEntries]

/-- C8 counterexample: the sync-completion path does not run the hidden-GC,
so after a sync that drops the only event with uid "X" the hidden entry for
"X" persists even though "X" is absent from the snapshot — refuting "every
garbage collection ... triggered ... by every sync" with its invariant. -/
theorem sync_does_not_gc_hidden :
    (appOnSyncComplete
        { view := { events := [{ Event.mk0 with uid := "X" }],
                    lastSync := 0, lastSyncErr := none },
          hiddenEntries := [⟨"X", 0⟩] }
        [] [] none 1000).hiddenEntries = [⟨"X", 0⟩] ∧
    eventByUID (appOnSyncComplete
        { view := { events := [{ Event.mk0 with uid := "X" }],
                    lastSync := 0, lastSyncErr := none },
          hiddenEntries := [⟨"X", 0⟩] }
        [] [] none 1000).view.events "X" = none := by
  decide

/-- C8 amended: the hidden-registry GC runs on every hide/unhide mutation
(sync does not trigger it); after a GC every surviving entry's uid resolves
to an event in the snapshot whose end plus grace is not in the past, and
entries violating either condition are dropped. -/
theorem gcHiddenEntries_spec (events : List Event) (grace now : Int)
    (entries : List HiddenEntry) :
    (∀ h ∈ gcHiddenEntries events grace now entries,
       ∃ e, eventByUID events h.uid = some e ∧ ¬(e.«end» + grace < now)) ∧
    (∀ h ∈ entries,
       (eventByUID events h.uid = none ∨
        ∃ e, eventByUID events h.uid = some e ∧ e.«end» + grace < now) →
       h ∉ gcHiddenEntries events grace now entries) ∧
    (∀ uid, ∀ h ∈ hideEvent events grace now entries uid,
       ∃ e, eventByUID events h.uid = some e ∧ ¬(e.«end» + grace < now)) ∧
    (∀ uid, ∀ h ∈ unhideEvent events grace now entries uid,
       ∃ e, eventByUID events h.uid = some e ∧ ¬(e.«end» + grace < now)) := by
  have hkeep : ∀ h : HiddenEntry, keepHidden events grace now h = true →
      ∃ e, eventByUID events h.uid = some e ∧ ¬(e.«end» + grace < now) := by
    intro h hk
    unfold keepHidden at hk
    cases hby : eventByUID events h.uid with
    | none => rw [hby] at hk; simp at hk
    | some e =>
        rw [hby] at hk
        refine ⟨e, rfl, ?_⟩
        simpa using hk
  have hmem : ∀ (es : List HiddenEntry) (h : HiddenEntry),
      h ∈ gcHiddenEntries events grace now es →
      ∃ e, eventByUID events h.uid = some e ∧ ¬(e.«end» + grace < now) := by
    intro es h hm
    rw [gc_eq_filter] at hm
    exact hkeep h (List.of_mem_filter hm)
  refine ⟨fun h hm => hmem entries h hm, ?_, fun uid h hm => hmem _ h hm,
    fun uid h hm => hmem _ h hm⟩
  intro h _ hviol hm
  have := hmem entries h hm
  rcases this with ⟨e, hsome, hlive⟩
  rcases hviol with hnone | ⟨e', hsome', hdead⟩
  · rw [hnone] at hsome; cases hsome
  · rw [hsome'] at hsome
    cases hsome
    exact hlive hdead

/-- C8 amended witness: with one live event "A" and hidden entries for "A"
and a vanished "B", the GC keeps "A" (whose event is within grace) and
drops "B". -/
theorem gcHiddenEntries_spec_witness :
    (∃ e, eventByUID [{ Event.mk0 with uid := "A", «end» := 100 }] "A" = some e ∧
       ¬(e.«end» + 10 < 50)) ∧
    (⟨"B", 0⟩ : HiddenEntry) ∉
      gcHiddenEntries [{ Event.mk0 with uid := "A", «end» := 100 }] 10 50
        [⟨"A", 0⟩, ⟨"B", 0⟩] :=
  ⟨(gcHiddenEntries_spec [{ Event.mk0 with uid := "A", «end» := 100 }] 10 50
      [⟨"A", 0⟩, ⟨"B", 0⟩]).1 ⟨"A", 0⟩ (by decide),
   (gcHiddenEntries_spec [{ Event.mk0 with uid := "A", «end» := 100 }] 10 50
      [⟨"A", 0⟩, ⟨"B", 0⟩]).2.1 ⟨"B", 0⟩ (by decide) (Or.inl (by decide))⟩

/-! ## Claim C5 -/

/-- C5: the recurring branch of `parseEvent` expands exactly the
occurrences lying in `[now − duration, fetch end]`, bounds inclusive; each
expanded event copies the series fields, overriding start to the occurrence
time, end to start plus the series duration, uid to
`"{series_uid}_{unix_seconds}"`, with all-day re-evaluated per occurrence. -/
theorem parseEventRecurring_spec (base : Event) (isAllDayX : Bool)
    (duration now fetchEnd : Int) (r : RecurSeries) :
    (∀ ev, ev ∈ parseEventRecurring base isAllDayX duration now fetchEnd r ↔
       ∃ occ, occ ∈ occurrences r ∧ now - duration ≤ occ ∧ occ ≤ fetchEnd ∧
         ev = mkOccurrence base isAllDayX duration occ) ∧
    (∀ occ,
       (mkOccurrence base isAllDayX duration occ).start = occ ∧
       (mkOccurrence base isAllDayX duration occ).«end» = occ + duration ∧
       (mkOccurrence base isAllDayX duration occ).uid =
         base.uid ++ "_" ++ toString (occ / nsPerSecond) ∧
       (mkOccurrence base isAllDayX duration occ).allDay =
         (isAllDayX || isEffectivelyAllDay occ (occ + duration)) ∧
       (mkOccurrence base isAllDayX duration occ).summary = base.summary ∧
       (mkOccurrence base isAllDayX duration occ).description = base.description ∧
       (mkOccurrence base isAllDayX duration occ).location = base.location ∧
       (mkOccurrence base isAllDayX duration occ).organizer = base.organizer ∧
       (mkOccurrence base isAllDayX duration occ).source = base.source ∧
       (mkOccurrence base isAllDayX duration occ).url = base.url) := by
  constructor
  · intro ev
    simp only [parseEventRecurring, rsetBetween, List.mem_map, List.mem_filter,
      Bool.and_eq_true, decide_eq_true_eq]
    constructor
    · rintro ⟨occ, ⟨hocc, hlo, hhi⟩, hev⟩
      exact ⟨occ, hocc, hlo, hhi, hev.symm⟩
    · rintro ⟨occ, hocc, hlo, hhi, hev⟩
      exact ⟨occ, ⟨hocc, hlo, hhi⟩, hev.symm⟩
  · intro occ
    exact ⟨rfl, rfl, rfl, rfl, rfl, rfl, rfl, rfl, rfl, rfl⟩

/-- Sanity vector for the recurrence expansion (spec scenario 3): a daily
series at 10:00 with one-hour duration, fetched up to midnight of day 4,
expands to the three occurrences on days 1, 2 and 3. -/
theorem recurrence_scenario3 :
    parseEventRecurring Event.mk0 false nsPerHour (mkLocal 1 9 30 0 0)
        (mkLocal 4 0 0 0 0)
        { dtstart := mkLocal 1 10 0 0 0, periodNs := nsPerDay, count := 5 } =
      [mkOccurrence Event.mk0 false nsPerHour (mkLocal 1 10 0 0 0),
       mkOccurrence Event.mk0 false nsPerHour (mkLocal 2 10 0 0 0),
       mkOccurrence Event.mk0 false nsPerHour (mkLocal 3 10 0 0 0)] := by
  decide

/-! ## Claim C6 -/

theorem components_zero_iff (t : Int) :
    (hourOf t = 0 ∧ minuteOf t = 0 ∧ secondOf t = 0 ∧ nanosOf t = 0) ↔
      nsOfDay t = 0 := by
  unfold hourOf minuteOf secondOf nanosOf nsOfDay
  unfold nsPerDay nsPerHour nsPerMinute nsPerSecond
  omega

/-- C6: `is_effectively_all_day(start, end)` is true iff both instants have
zero local time-of-day components (hour, minute, second, nanosecond) and
end is strictly after start; in particular `end ≤ start` yields false, and
a not-explicitly-date-valued event passing the test is marked all-day by
the normalizer. -/
theorem isEffectivelyAllDay_spec (s e : Int) :
    (isEffectivelyAllDay s e = true ↔
       (hourOf s = 0 ∧ minuteOf s = 0 ∧ secondOf s = 0 ∧ nanosOf s = 0 ∧
        hourOf e = 0 ∧ minuteOf e = 0 ∧ secondOf e = 0 ∧ nanosOf e = 0 ∧
        s < e)) ∧
    (e ≤ s → isEffectivelyAllDay s e = false) ∧
    (∀ base duration, isEffectivelyAllDay s (s + duration) = true →
       (mkNonRecurring base false s duration).allDay = true) := by
  refine ⟨?_, ?_, ?_⟩
  · simp only [isEffectivelyAllDay, Bool.and_eq_true, beq_iff_eq, decide_eq_true_eq]
    rw [← components_zero_iff s, ← components_zero_iff e]
    tauto
  · intro hle
    unfold isEffectivelyAllDay
    rw [decide_eq_false (not_lt.mpr hle)]
    simp
  · intro base duration hpass
    simp [mkNonRecurring, hpass]

/-- C6 witness: a full local day (midnight to next midnight) passes the
test and is marked all-day by the non-recurring normalizer branch. -/
theorem isEffectivelyAllDay_spec_witness :
    (mkNonRecurring Event.mk0 false 0 nsPerDay).allDay = true :=
  (isEffectivelyAllDay_spec 0 nsPerDay).2.2 Event.mk0 nsPerDay (by decide)

/-- The Lean model of `isEffectivelyAllDay` reproduces all nine rows of the
in-repo `TestIsEffectivelyAllDay` table (day 1 playing 2026-02-17). -/
theorem isEffectivelyAllDay_test_vectors :
    isEffectivelyAllDay (mkLocal 1 0 0 0 0) (mkLocal 2 0 0 0 0) = true ∧
    isEffectivelyAllDay (mkLocal 0 0 0 0 0) (mkLocal 5 0 0 0 0) = true ∧
    isEffectivelyAllDay (mkLocal 1 9 0 0 0) (mkLocal 2 0 0 0 0) = false ∧
    isEffectivelyAllDay (mkLocal 1 0 0 0 0) (mkLocal 2 17 0 0 0) = false ∧
    isEffectivelyAllDay (mkLocal 1 0 0 0 0) (mkLocal 1 0 0 0 0) = false ∧
    isEffectivelyAllDay (mkLocal 2 0 0 0 0) (mkLocal 1 0 0 0 0) = false ∧
    isEffectivelyAllDay (mkLocal 1 0 0 1 0) (mkLocal 2 0 0 0 0) = false ∧
    isEffectivelyAllDay (mkLocal 1 10 30 0 0) (mkLocal 1 11 30 0 0) = false ∧
    isEffectivelyAllDay (mkLocal 1 5 0 0 0) (mkLocal 2 5 0 0 0) = false := by
  decide

/-! ## Claim C9 -/

/-- C9 counterexample: the location holds only a generic URL and the
description holds a Google Meet link, yet `DetectFromEvent` returns the
generic location match — the description is never searched for a service
match, refuting "it searches location first and then description for a
service-pattern match; only if neither field contains a service match does
it fall back to the generic URL pattern". -/
theorem detect_generic_location_wins :
    DetectFromEvent "see https://ex.co/i now" "https://meet.google.com/abc" ""
      = "https://ex.co/i" ∧
    firstNonEmptyMatch linkPatterns.dropLast "see https://ex.co/i now" = "" ∧
    firstNonEmptyMatch linkPatterns.dropLast "https://meet.google.com/abc"
      = "https://meet.google.com/abc" ∧
    "https://ex.co/i" ≠ "https://meet.google.com/abc" := by
  decide

/-- C9 amended: `DetectFromEvent` returns `url` when it matches a service
pattern; otherwise it scans *per field*: the location is searched with the
service patterns first and the generic pattern as fallback, and only when
the location yields no match at all is the description searched the same
way. -/
theorem DetectFromEvent_spec (location description url : String) :
    (url ≠ "" → linkPatterns.dropLast.any (fun p => matchString p url) = true →
       DetectFromEvent location description url = url) ∧
    ((url = "" ∨ linkPatterns.dropLast.any (fun p => matchString p url) = false) →
       DetectFromEvent location description url = Detect location description) ∧
    (detectInText location ≠ "" →
       Detect location description = detectInText location) ∧
    (detectInText location = "" →
       Detect location description = detectInText description) ∧
    (∀ text : String, text ≠ "" →
       firstNonEmptyMatch linkPatterns.dropLast text ≠ "" →
       detectInText text = firstNonEmptyMatch linkPatterns.dropLast text) ∧
    (∀ text : String, text ≠ "" →
       firstNonEmptyMatch linkPatterns.dropLast text = "" →
       detectInText text = findString genericPattern text) := by
  refine ⟨?_, ?_, ?_, ?_, ?_, ?_⟩
  · intro h1 h2
    simp [DetectFromEvent, h1, h2]
  · intro h
    rcases h with h | h
    · simp [DetectFromEvent, h]
    · simp [DetectFromEvent, h]
  · intro h
    simp [Detect, h]
  · intro h
    simp [Detect, h]
  · intro text h1 h2
    simp [detectInText, h1, h2]
  · intro text h1 h2
    simp [detectInText, h1, h2]

/-- C9 amended witness: a Meet URL in the url field is returned as-is;
a service link in the location beats the description. -/
theorem DetectFromEvent_spec_witness :
    DetectFromEvent "room 5" "" "https://meet.google.com/abc"
      = "https://meet.google.com/abc" :=
  (DetectFromEvent_spec "room 5" "" "https://meet.google.com/abc").1
    (by decide) (by decide)

/-! ## Notification loop lemmas (shared by several claims) -/

theorem lookupKey_filter {α β : Type} [DecidableEq α] (p : α × β → Bool) :
    ∀ (l : List (α × β)) (k : α) (v : β), lookupKey l k = some v →
      p (k, v) = true → lookupKey (l.filter p) k = some v := by
  intro l
  induction l with
  | nil => intro k v h; simp [lookupKey] at h
  | cons kv rest ih =>
      intro k v hlk hp
      obtain ⟨k', v'⟩ := kv
      by_cases hk : k' = k
      · subst hk
        simp only [lookupKey, if_pos rfl] at hlk
        cases hlk
        rw [List.filter_cons, if_pos hp]
        simp [lookupKey]
      · simp only [lookupKey, if_neg hk] at hlk
        rw [List.filter_cons]
        by_cases hp' : p (k', v') = true
        · rw [if_pos hp']
          simp only [lookupKey, if_neg hk]
          exact ih k v hlk hp
        · rw [if_neg hp']
          exact ih k v hlk hp

theorem thresholdLoop_props (bus : Nat → Option Nat) (now : Int) (e : Event)
    (startsIn : Int) :
    ∀ (bl : List Int) (st : TickState),
      (∀ k v, lookupKey st.tickets k = some v →
        lookupKey (thresholdLoop bus now e startsIn bl st).1.tickets k = some v) ∧
      (∀ k ∈ (thresholdLoop bus now e startsIn bl st).2,
        k.1 = e.uid ∧ k.2 ∈ bl ∧ startsIn ≤ k.2 ∧ startsIn > k.2 - nsPerMinute ∧
        lookupKey st.tickets k = none ∧
        lookupKey (thresholdLoop bus now e startsIn bl st).1.tickets k = some now) ∧
      (∀ k, (lookupKey (thresholdLoop bus now e startsIn bl st).1.tickets k).isSome ↔
        ((lookupKey st.tickets k).isSome ∨ k ∈ (thresholdLoop bus now e startsIn bl st).2)) ∧
      (thresholdLoop bus now e startsIn bl st).2.Nodup := by
  intro bl
  induction bl with
  | nil =>
      intro st
      refine ⟨fun k v h => h, ?_, ?_, ?_⟩ <;> simp [thresholdLoop]
  | cons before rest ih =>
      intro st
      by_cases hw : (decide (startsIn ≤ before) && decide (startsIn > before - nsPerMinute)) = true
      · cases hlk : lookupKey st.tickets (e.uid, before) with
        | some v0 =>
            have heq : thresholdLoop bus now e startsIn (before :: rest) st =
                thresholdLoop bus now e startsIn rest st := by
              simp [thresholdLoop, hw, hlk]
            rw [heq]
            obtain ⟨m, a, c, d⟩ := ih st
            refine ⟨m, ?_, c, d⟩
            intro k hk
            obtain ⟨h1, h2, h3, h4, h5, h6⟩ := a k hk
            exact ⟨h1, List.mem_cons_of_mem _ h2, h3, h4, h5, h6⟩
        | none =>
            have heq : thresholdLoop bus now e startsIn (before :: rest) st =
                ((thresholdLoop bus now e startsIn rest
                    ⟨((e.uid, before), now) :: st.tickets,
                      sendNotification bus now e startsIn st.ns⟩).1,
                 (e.uid, before) ::
                   (thresholdLoop bus now e startsIn rest
                    ⟨((e.uid, before), now) :: st.tickets,
                      sendNotification bus now e startsIn st.ns⟩).2) := by
              simp [thresholdLoop, hw, hlk]
            set st' : TickState :=
              ⟨((e.uid, before), now) :: st.tickets,
                sendNotification bus now e startsIn st.ns⟩ with hst'
            obtain ⟨m, a, c, d⟩ := ih st'
            rw [Bool.and_eq_true, decide_eq_true_eq, decide_eq_true_eq] at hw
            have hmono : ∀ k v, lookupKey st.tickets k = some v →
                lookupKey (thresholdLoop bus now e startsIn rest st').1.tickets k = some v := by
              intro k v hk
              apply m
              have hne : (e.uid, before) ≠ k := by
                intro hcontra
                rw [hcontra] at hlk
                rw [hlk] at hk
                cases hk
              simp [hst', lookupKey, hne]
              exact hk
            have hkeynow : lookupKey (thresholdLoop bus now e startsIn rest st').1.tickets
                (e.uid, before) = some now := by
              apply m
              simp [hst', lookupKey]
            refine ⟨?_, ?_, ?_, ?_⟩
            · rw [heq]
              exact hmono
            · rw [heq]
              intro k hk
              rcases List.mem_cons.mp hk with rfl | hk
              · exact ⟨rfl, List.mem_cons_self _ _, hw.1, hw.2, hlk, hkeynow⟩
              · obtain ⟨h1, h2, h3, h4, h5, h6⟩ := a k hk
                have h5' : lookupKey st.tickets k = none := by
                  by_cases hkk : (e.uid, before) = k
                  · rw [hst'] at h5
                    simp [lookupKey, hkk] at h5
                  · rw [hst'] at h5
                    simpa [lookupKey, hkk] using h5
                exact ⟨h1, List.mem_cons_of_mem _ h2, h3, h4, h5', h6⟩
            · intro k
              rw [heq]
              have hc := c k
              simp only [List.mem_cons]
              rw [hc]
              have hcons : (lookupKey st'.tickets k).isSome ↔
                  ((e.uid, before) = k ∨ (lookupKey st.tickets k).isSome) := by
                simp only [hst', lookupKey]
                by_cases hkk : (e.uid, before) = k
                · simp [hkk]
                · simp [hkk]
              rw [hcons]
              tauto
            · rw [heq]
              refine List.nodup_cons.mpr ⟨?_, d⟩
              intro habs
              obtain ⟨_, _, _, _, h5, _⟩ := a _ habs
              rw [hst'] at h5
              simp [lookupKey] at h5
      · have heq : thresholdLoop bus now e startsIn (before :: rest) st =
            thresholdLoop bus now e startsIn rest st := by
          simp only [thresholdLoop]
          rw [Bool.not_eq_true] at hw
          rw [hw]
          simp
        rw [heq]
        obtain ⟨m, a, c, d⟩ := ih st
        refine ⟨m, ?_, c, d⟩
        intro k hk
        obtain ⟨h1, h2, h3, h4, h5, h6⟩ := a k hk
        exact ⟨h1, List.mem_cons_of_mem _ h2, h3, h4, h5, h6⟩

theorem eventsLoop_props (bus : Nat → Option Nat) (now grace : Int) (bl : List Int) :
    ∀ (events : List Event) (st : TickState),
      (∀ k v, lookupKey st.tickets k = some v →
        lookupKey (eventsLoop bus now grace bl events st).1.tickets k = some v) ∧
      (∀ k ∈ (eventsLoop bus now grace bl events st).2,
        (∃ e ∈ events, k.1 = e.uid ∧ ¬(e.«end» + grace < now) ∧
          0 ≤ e.start - now ∧ e.start - now ≤ k.2 ∧
          e.start - now > k.2 - nsPerMinute) ∧
        k.2 ∈ bl ∧ lookupKey st.tickets k = none ∧
        lookupKey (eventsLoop bus now grace bl events st).1.tickets k = some now) ∧
      (∀ k, (lookupKey (eventsLoop bus now grace bl events st).1.tickets k).isSome ↔
        ((lookupKey st.tickets k).isSome ∨
          k ∈ (eventsLoop bus now grace bl events st).2)) ∧
      (eventsLoop bus now grace bl events st).2.Nodup := by
  intro events
  induction events with
  | nil =>
      intro st
      refine ⟨fun k v h => h, ?_, ?_, ?_⟩ <;> simp [eventsLoop]
  | cons e rest ih =>
      intro st
      by_cases hgr : decide (e.«end» + grace < now) = true
      · have heq : eventsLoop bus now grace bl (e :: rest) st =
            eventsLoop bus now grace bl rest st := by
          simp [eventsLoop, hgr]
        rw [heq]
        obtain ⟨m, a, c, d⟩ := ih st
        refine ⟨m, ?_, c, d⟩
        intro k hk
        obtain ⟨⟨e', he', hrest⟩, h2, h3, h4⟩ := a k hk
        exact ⟨⟨e', List.mem_cons_of_mem _ he', hrest⟩, h2, h3, h4⟩
      · by_cases hst0 : decide (e.start - now < 0) = true
        · have heq : eventsLoop bus now grace bl (e :: rest) st =
              eventsLoop bus now grace bl rest st := by
            have hgrP : ¬ (e.«end» + grace < now) := by simpa using hgr
            have hstP : e.start - now < 0 := by simpa using hst0
            simp [eventsLoop, hgrP, hstP]
          rw [heq]
          obtain ⟨m, a, c, d⟩ := ih st
          refine ⟨m, ?_, c, d⟩
          intro k hk
          obtain ⟨⟨e', he', hrest⟩, h2, h3, h4⟩ := a k hk
          exact ⟨⟨e', List.mem_cons_of_mem _ he', hrest⟩, h2, h3, h4⟩
        · have heq : eventsLoop bus now grace bl (e :: rest) st =
              ((eventsLoop bus now grace bl rest
                  (thresholdLoop bus now e (e.start - now) bl st).1).1,
               (thresholdLoop bus now e (e.start - now) bl st).2 ++
                 (eventsLoop bus now grace bl rest
                   (thresholdLoop bus now e (e.start - now) bl st).1).2) := by
            have hgrP : ¬ (e.«end» + grace < now) := by simpa using hgr
            have hstP : ¬ (e.start - now < 0) := by simpa using hst0
            simp [eventsLoop, hgrP, hstP]
          obtain ⟨mT, aT, cT, dT⟩ := thresholdLoop_props bus now e (e.start - now) bl st
          obtain ⟨mR, aR, cR, dR⟩ := ih (thresholdLoop bus now e (e.start - now) bl st).1
          rw [Bool.not_eq_true] at hgr hst0
          rw [decide_eq_false_iff_not] at hgr hst0
          push_neg at hst0
          refine ⟨?_, ?_, ?_, ?_⟩
          · rw [heq]
            intro k v hk
            exact mR k v (mT k v hk)
          · rw [heq]
            intro k hk
            rcases List.mem_append.mp hk with hk | hk
            · obtain ⟨h1, h2, h3, h4, h5, h6⟩ := aT k hk
              exact ⟨⟨e, List.mem_cons_self _ _, h1, hgr, hst0, h3, h4⟩, h2, h5,
                mR k now h6⟩
            · obtain ⟨⟨e', he', hrest⟩, h2, h3, h4⟩ := aR k hk
              have h3' : lookupKey st.tickets k = none := by
                cases hv : lookupKey st.tickets k with
                | none => rfl
                | some v =>
                    have := mT k v hv
                    rw [h3] at this
                    cases this
              exact ⟨⟨e', List.mem_cons_of_mem _ he', hrest⟩, h2, h3', h4⟩
          · intro k
            rw [heq]
            have h1 := cR k
            have h2 := cT k
            simp only [List.mem_append]
            rw [h1, h2]
            tauto
          · rw [heq]
            refine List.Nodup.append dT dR ?_
            rw [List.disjoint_left]
            intro k hk1 hk2
            obtain ⟨_, _, _, _, _, h6⟩ := aT k hk1
            obtain ⟨_, _, h3, _⟩ := aR k hk2
            rw [h6] at h3
            cases h3

theorem checkNotifications_props (bus : Nat → Option Nat) (enabled : Bool)
    (bl : List Int) (grace now : Int) (events : List Event) (st : TickState) :
    (∀ k ∈ (checkNotifications bus enabled bl grace now events st).2.1,
       (∃ e ∈ events, k.1 = e.uid ∧ ¬(e.«end» + grace < now) ∧
         0 ≤ e.start - now ∧ e.start - now ≤ k.2 ∧
         e.start - now > k.2 - nsPerMinute) ∧
       k.2 ∈ bl ∧ lookupKey st.tickets k = none ∧
       lookupKey (checkNotifications bus enabled bl grace now events st).1.tickets k
         = some now) ∧
    (checkNotifications bus enabled bl grace now events st).2.1.Nodup ∧
    ((checkNotifications bus enabled bl grace now events st).2.2 = false →
      ∀ k, (lookupKey
          (checkNotifications bus enabled bl grace now events st).1.tickets k).isSome ↔
        ((lookupKey st.tickets k).isSome ∨
          k ∈ (checkNotifications bus enabled bl grace now events st).2.1)) := by
  by_cases he : enabled = true
  · have hun : checkNotifications bus enabled bl grace now events st =
        (⟨pruneTickets now (eventsLoop bus now grace bl events st).1.tickets,
          (eventsLoop bus now grace bl events st).1.ns⟩,
         (eventsLoop bus now grace bl events st).2,
         decide (pruneTickets now (eventsLoop bus now grace bl events st).1.tickets ≠
           (eventsLoop bus now grace bl events st).1.tickets)) := by
      simp [checkNotifications, he]
    obtain ⟨m, a, c, d⟩ := eventsLoop_props bus now grace bl events st
    refine ⟨?_, ?_, ?_⟩
    · rw [hun]
      intro k hk
      obtain ⟨h1, h2, h3, h4⟩ := a k hk
      refine ⟨h1, h2, h3, ?_⟩
      apply lookupKey_filter _ _ _ _ h4
      have : ¬ (now < now - nsPerDay) := by
        unfold nsPerDay nsPerHour nsPerMinute nsPerSecond
        omega
      simp [this]
    · rw [hun]
      exact d
    · rw [hun]
      intro hflag k
      simp only [decide_eq_false_iff_not, Decidable.not_not] at hflag
      rw [hflag]
      exact c k
  · have hun : checkNotifications bus enabled bl grace now events st = (st, [], false) := by
      have : enabled = false := by
        cases enabled
        · rfl
        · exact absurd rfl he
      simp [checkNotifications, this]
    rw [hun]
    refine ⟨?_, ?_, ?_⟩
    · intro k hk
      simp at hk
    · exact List.nodup_nil
    · intro _ k
      simp

theorem runTicks_nodup (bus : Nat → Option Nat) (enabled : Bool) (bl : List Int)
    (grace : Int) :
    ∀ (ticks : List (Int × List Event)) (st : TickState) (acc : List (String × Int)),
      acc.Nodup → (∀ k ∈ acc, (lookupKey st.tickets k).isSome) →
      (runTicks bus enabled bl grace ticks st).2.2 = false →
      (acc ++ (runTicks bus enabled bl grace ticks st).2.1).Nodup := by
  intro ticks
  induction ticks with
  | nil =>
      intro st acc hacc _ _
      simpa [runTicks] using hacc
  | cons t rest ih =>
      obtain ⟨now, events⟩ := t
      intro st acc hacc hin hflag
      have hun : runTicks bus enabled bl grace ((now, events) :: rest) st =
          ((runTicks bus enabled bl grace rest
              (checkNotifications bus enabled bl grace now events st).1).1,
           (checkNotifications bus enabled bl grace now events st).2.1 ++
             (runTicks bus enabled bl grace rest
               (checkNotifications bus enabled bl grace now events st).1).2.1,
           (checkNotifications bus enabled bl grace now events st).2.2 ||
             (runTicks bus enabled bl grace rest
               (checkNotifications bus enabled bl grace now events st).1).2.2) := by
        simp [runTicks]
      rw [hun] at hflag ⊢
      simp only [Bool.or_eq_false_iff] at hflag
      obtain ⟨hf1, hf2⟩ := hflag
      obtain ⟨a, d, cflag⟩ :=
        checkNotifications_props bus enabled bl grace now events st
      have hiff := cflag hf1
      have hacc' : (acc ++ (checkNotifications bus enabled bl grace now events st).2.1).Nodup := by
        refine List.Nodup.append hacc d ?_
        rw [List.disjoint_left]
        intro k hk1 hk2
        obtain ⟨_, _, h3, _⟩ := a k hk2
        have := hin k hk1
        rw [h3] at this
        simp at this
      have hin' : ∀ k ∈ acc ++ (checkNotifications bus enabled bl grace now events st).2.1,
          (lookupKey (checkNotifications bus enabled bl grace now events st).1.tickets k).isSome := by
        intro k hk
        rcases List.mem_append.mp hk with hk | hk
        · exact (hiff k).mpr (Or.inl (hin k hk))
        · obtain ⟨_, _, _, h4⟩ := a k hk
          rw [h4]
          rfl
      have := ih (checkNotifications bus enabled bl grace now events st).1
        (acc ++ (checkNotifications bus enabled bl grace now events st).2.1)
        hacc' hin' hf2
      simpa [List.append_assoc] using this

/-! ## Claim C3 -/

/-- C3: a notification tick sends for (uid, T) only when the event is
within the half-open window `(T − 1m, T]` before start (start not in the
past), no ticket for (uid, T) exists, and it records the ticket when it
sends; across a run of ticks in which pruning never removes a ticket, each
(uid, T) pair is sent at most once. -/
theorem checkNotifications_window_and_once :
    (∀ (bus : Nat → Option Nat) (enabled : Bool) (bl : List Int)
       (grace now : Int) (events : List Event) (st : TickState),
       ∀ k ∈ (checkNotifications bus enabled bl grace now events st).2.1,
         (∃ e ∈ events, k.1 = e.uid ∧ ¬(e.«end» + grace < now) ∧
            0 ≤ e.start - now ∧ e.start - now ≤ k.2 ∧
            e.start - now > k.2 - nsPerMinute) ∧
         k.2 ∈ bl ∧ lookupKey st.tickets k = none ∧
         lookupKey (checkNotifications bus enabled bl grace now events st).1.tickets k
           = some now) ∧
    (∀ (bus : Nat → Option Nat) (enabled : Bool) (bl : List Int) (grace : Int)
       (ticks : List (Int × List Event)) (st : TickState),
       (runTicks bus enabled bl grace ticks st).2.2 = false →
       (runTicks bus enabled bl grace ticks st).2.1.Nodup) := by
  constructor
  · intro bus enabled bl grace now events st
    exact (checkNotifications_props bus enabled bl grace now events st).1
  · intro bus enabled bl grace ticks st hflag
    have := runTicks_nodup bus enabled bl grace ticks st [] List.nodup_nil
      (by intro k hk; simp at hk) hflag
    simpa using this

/-- C3 witness (spec scenario 5): threshold 15m, event starting 14m30s
after the first tick; the first tick sends once, the 30-seconds-later tick
does not send again, no pruning occurs, and the overall send list has no
duplicate (uid, T) pair. -/
theorem checkNotifications_window_and_once_witness :
    (runTicks (fun _ => some 1) true [15 * nsPerMinute] (5 * nsPerMinute)
        [(0, [evScenario5]), (30 * nsPerSecond, [evScenario5])]
        TickState.empty).2.2 = false ∧
    (runTicks (fun _ => some 1) true [15 * nsPerMinute] (5 * nsPerMinute)
        [(0, [evScenario5]), (30 * nsPerSecond, [evScenario5])]
        TickState.empty).2.1 = [("E", 15 * nsPerMinute)] ∧
    (runTicks (fun _ => some 1) true [15 * nsPerMinute] (5 * nsPerMinute)
        [(0, [evScenario5]), (30 * nsPerSecond, [evScenario5])]
        TickState.empty).2.1.Nodup :=
  ⟨by decide, by decide,
   checkNotifications_window_and_once.2 (fun _ => some 1) true [15 * nsPerMinute]
     (5 * nsPerMinute) [(0, [evScenario5]), (30 * nsPerSecond, [evScenario5])]
     TickState.empty (by decide)⟩

/-! ## Claim C4 -/

theorem thresholdLoop_bus_indep (bus1 bus2 : Nat → Option Nat) (now : Int)
    (e : Event) (startsIn : Int) :
    ∀ (bl : List Int) (st1 st2 : TickState), st1.tickets = st2.tickets →
      (thresholdLoop bus1 now e startsIn bl st1).1.tickets =
        (thresholdLoop bus2 now e startsIn bl st2).1.tickets ∧
      (thresholdLoop bus1 now e startsIn bl st1).2 =
        (thresholdLoop bus2 now e startsIn bl st2).2 := by
  intro bl
  induction bl with
  | nil =>
      intro st1 st2 h
      simpa [thresholdLoop] using h
  | cons before rest ih =>
      intro st1 st2 h
      by_cases hw : (decide (startsIn ≤ before) && decide (startsIn > before - nsPerMinute)) = true
      · cases hlk : lookupKey st1.tickets (e.uid, before) with
        | some v0 =>
            have hlk2 : lookupKey st2.tickets (e.uid, before) = some v0 := by
              rw [← h]; exact hlk
            have h1 : thresholdLoop bus1 now e startsIn (before :: rest) st1 =
                thresholdLoop bus1 now e startsIn rest st1 := by
              simp [thresholdLoop, hw, hlk]
            have h2 : thresholdLoop bus2 now e startsIn (before :: rest) st2 =
                thresholdLoop bus2 now e startsIn rest st2 := by
              simp [thresholdLoop, hw, hlk2]
            rw [h1, h2]
            exact ih st1 st2 h
        | none =>
            have hlk2 : lookupKey st2.tickets (e.uid, before) = none := by
              rw [← h]; exact hlk
            have h1 : thresholdLoop bus1 now e startsIn (before :: rest) st1 =
                ((thresholdLoop bus1 now e startsIn rest
                    ⟨((e.uid, before), now) :: st1.tickets,
                      sendNotification bus1 now e startsIn st1.ns⟩).1,
                 (e.uid, before) ::
                   (thresholdLoop bus1 now e startsIn rest
                    ⟨((e.uid, before), now) :: st1.tickets,
                      sendNotification bus1 now e startsIn st1.ns⟩).2) := by
              simp [thresholdLoop, hw, hlk]
            have h2 : thresholdLoop bus2 now e startsIn (before :: rest) st2 =
                ((thresholdLoop bus2 now e startsIn rest
                    ⟨((e.uid, before), now) :: st2.tickets,
                      sendNotification bus2 now e startsIn st2.ns⟩).1,
                 (e.uid, before) ::
                   (thresholdLoop bus2 now e startsIn rest
                    ⟨((e.uid, before), now) :: st2.tickets,
                      sendNotification bus2 now e startsIn st2.ns⟩).2) := by
              simp [thresholdLoop, hw, hlk2]
            rw [h1, h2]
            have := ih
              ⟨((e.uid, before), now) :: st1.tickets,
                sendNotification bus1 now e startsIn st1.ns⟩
              ⟨((e.uid, before), now) :: st2.tickets,
                sendNotification bus2 now e startsIn st2.ns⟩
              (by simp [h])
            exact ⟨this.1, by rw [this.2]⟩
      · have h1 : thresholdLoop bus1 now e startsIn (before :: rest) st1 =
            thresholdLoop bus1 now e startsIn rest st1 := by
          simp only [thresholdLoop]
          rw [Bool.not_eq_true] at hw
          rw [hw]
          simp
        have h2 : thresholdLoop bus2 now e startsIn (before :: rest) st2 =
            thresholdLoop bus2 now e startsIn rest st2 := by
          simp only [thresholdLoop]
          rw [Bool.not_eq_true] at hw
          rw [hw]
          simp
        rw [h1, h2]
        exact ih st1 st2 h

theorem eventsLoop_bus_indep (bus1 bus2 : Nat → Option Nat) (now grace : Int)
    (bl : List Int) :
    ∀ (events : List Event) (st1 st2 : TickState), st1.tickets = st2.tickets →
      (eventsLoop bus1 now grace bl events st1).1.tickets =
        (eventsLoop bus2 now grace bl events st2).1.tickets ∧
      (eventsLoop bus1 now grace bl events st1).2 =
        (eventsLoop bus2 now grace bl events st2).2 := by
  intro events
  induction events with
  | nil =>
      intro st1 st2 h
      simpa [eventsLoop] using h
  | cons e rest ih =>
      intro st1 st2 h
      by_cases hgr : decide (e.«end» + grace < now) = true
      · have h1 : eventsLoop bus1 now grace bl (e :: rest) st1 =
            eventsLoop bus1 now grace bl rest st1 := by
          simp [eventsLoop, hgr]
        have h2 : eventsLoop bus2 now grace bl (e :: rest) st2 =
            eventsLoop bus2 now grace bl rest st2 := by
          simp [eventsLoop, hgr]
        rw [h1, h2]
        exact ih st1 st2 h
      · by_cases hst0 : decide (e.start - now < 0) = true
        · have hgrP : ¬ (e.«end» + grace < now) := by simpa using hgr
          have hstP : e.start - now < 0 := by simpa using hst0
          have h1 : eventsLoop bus1 now grace bl (e :: rest) st1 =
              eventsLoop bus1 now grace bl rest st1 := by
            simp [eventsLoop, hgrP, hstP]
          have h2 : eventsLoop bus2 now grace bl (e :: rest) st2 =
              eventsLoop bus2 now grace bl rest st2 := by
            simp [eventsLoop, hgrP, hstP]
          rw [h1, h2]
          exact ih st1 st2 h
        · have hgrP : ¬ (e.«end» + grace < now) := by simpa using hgr
          have hstP : ¬ (e.start - now < 0) := by simpa using hst0
          have h1 : eventsLoop bus1 now grace bl (e :: rest) st1 =
              ((eventsLoop bus1 now grace bl rest
                  (thresholdLoop bus1 now e (e.start - now) bl st1).1).1,
               (thresholdLoop bus1 now e (e.start - now) bl st1).2 ++
                 (eventsLoop bus1 now grace bl rest
                   (thresholdLoop bus1 now e (e.start - now) bl st1).1).2) := by
            simp [eventsLoop, hgrP, hstP]
          have h2 : eventsLoop bus2 now grace bl (e :: rest) st2 =
              ((eventsLoop bus2 now grace bl rest
                  (thresholdLoop bus2 now e (e.start - now) bl st2).1).1,
               (thresholdLoop bus2 now e (e.start - now) bl st2).2 ++
                 (eventsLoop bus2 now grace bl rest
                   (thresholdLoop bus2 now e (e.start - now) bl st2).1).2) := by
            simp [eventsLoop, hgrP, hstP]
          rw [h1, h2]
          obtain ⟨ht, hs⟩ := thresholdLoop_bus_indep bus1 bus2 now e (e.start - now) bl st1 st2 h
          obtain ⟨ht', hs'⟩ := ih (thresholdLoop bus1 now e (e.start - now) bl st1).1
            (thresholdLoop bus2 now e (e.start - now) bl st2).1 ht
          exact ⟨ht', by rw [hs, hs']⟩

/-- C4 counterexample: the bus fails on every Notify call, yet the first
tick records the (uid, 15m) ticket; a tick 30 seconds later, still inside
the 15-minute window, sends nothing — refuting "the (uid, T) ticket is NOT
recorded, so a later tick that still falls inside the threshold window
retries the send". -/
theorem notification_failure_not_retried :
    (checkNotifications busFail true [15 * nsPerMinute] (5 * nsPerMinute) 0
        [evC4] TickState.empty).2.1 = [("E", 15 * nsPerMinute)] ∧
    (checkNotifications busFail true [15 * nsPerMinute] (5 * nsPerMinute) 0
        [evC4] TickState.empty).1.ns.busCalls = ["E"] ∧
    busFail 0 = none ∧
    lookupKey (checkNotifications busFail true [15 * nsPerMinute] (5 * nsPerMinute) 0
        [evC4] TickState.empty).1.tickets ("E", 15 * nsPerMinute) = some 0 ∧
    (checkNotifications busFail true [15 * nsPerMinute] (5 * nsPerMinute)
        (30 * nsPerSecond) [evC4]
        (checkNotifications busFail true [15 * nsPerMinute] (5 * nsPerMinute) 0
          [evC4] TickState.empty).1).2.1 = [] ∧
    evC4.start - 30 * nsPerSecond ≤ 15 * nsPerMinute ∧
    evC4.start - 30 * nsPerSecond > 15 * nsPerMinute - nsPerMinute := by
  decide

/-- C4 amended: a failed send is logged and swallowed, but the (uid, T)
ticket is recorded regardless of the bus outcome — the tickets and the
send decisions do not depend on the bus at all — so a later tick inside
the same window does not retry. -/
theorem sendFailure_ticket_still_recorded :
    (∀ (bus1 bus2 : Nat → Option Nat) (enabled : Bool) (bl : List Int)
       (grace now : Int) (events : List Event) (st : TickState),
       (checkNotifications bus1 enabled bl grace now events st).1.tickets =
         (checkNotifications bus2 enabled bl grace now events st).1.tickets ∧
       (checkNotifications bus1 enabled bl grace now events st).2.1 =
         (checkNotifications bus2 enabled bl grace now events st).2.1) ∧
    (∀ (bus : Nat → Option Nat) (enabled : Bool) (bl : List Int)
       (grace now : Int) (events : List Event) (st : TickState),
       ∀ k ∈ (checkNotifications bus enabled bl grace now events st).2.1,
         lookupKey (checkNotifications bus enabled bl grace now events st).1.tickets k
           = some now) := by
  constructor
  · intro bus1 bus2 enabled bl grace now events st
    by_cases he : enabled = true
    · have hun1 : checkNotifications bus1 enabled bl grace now events st =
          (⟨pruneTickets now (eventsLoop bus1 now grace bl events st).1.tickets,
            (eventsLoop bus1 now grace bl events st).1.ns⟩,
           (eventsLoop bus1 now grace bl events st).2,
           decide (pruneTickets now (eventsLoop bus1 now grace bl events st).1.tickets ≠
             (eventsLoop bus1 now grace bl events st).1.tickets)) := by
        simp [checkNotifications, he]
      have hun2 : checkNotifications bus2 enabled bl grace now events st =
          (⟨pruneTickets now (eventsLoop bus2 now grace bl events st).1.tickets,
            (eventsLoop bus2 now grace bl events st).1.ns⟩,
           (eventsLoop bus2 now grace bl events st).2,
           decide (pruneTickets now (eventsLoop bus2 now grace bl events st).1.tickets ≠
             (eventsLoop bus2 now grace bl events st).1.tickets)) := by
        simp [checkNotifications, he]
      obtain ⟨ht, hs⟩ := eventsLoop_bus_indep bus1 bus2 now grace bl events st st rfl
      rw [hun1, hun2]
      exact ⟨by rw [ht], hs⟩
    · have hef : enabled = false := by
        cases enabled
        · rfl
        · exact absurd rfl he
      simp [checkNotifications, hef]
  · intro bus enabled bl grace now events st k hk
    exact ((checkNotifications_props bus enabled bl grace now events st).1 k hk).2.2.2

/-- C4 amended witness: with the always-failing bus, the concrete tick
above still records its ticket; the bus-independence half is instantiated
against the always-succeeding bus. -/
theorem sendFailure_ticket_still_recorded_witness :
    lookupKey (checkNotifications busFail true [15 * nsPerMinute] (5 * nsPerMinute) 0
        [evC4] TickState.empty).1.tickets ("E", 15 * nsPerMinute) = some 0 :=
  sendFailure_ticket_still_recorded.2 busFail true [15 * nsPerMinute]
    (5 * nsPerMinute) 0 [evC4] TickState.empty ("E", 15 * nsPerMinute) (by decide)

/-! ## Claim C10 -/

/-- C10: `Notifier.Send` swallows (returns id 0, nil error, no bus call,
state unchanged) any notification whose non-empty event uid was last
notified less than one minute ago; the suppression is keyed by uid alone,
so in a tick where one event hits two thresholds at once the second send is
swallowed on the bus while the app-level loop still records both (uid, T)
tickets. -/
theorem notifierSend_spec :
    (∀ (bus : Nat → Option Nat) (now : Int) (uid : String) (st : NotifState)
       (last : Int), uid ≠ "" →
       lookupKey st.notified uid = some last → now - last < nsPerMinute →
       notifierSend bus now uid st = (0, false, st)) ∧
    ((checkNotifications (fun _ => some 7) true
        [15 * nsPerMinute, 870 * nsPerSecond] (5 * nsPerMinute) 0 [evC10]
        TickState.empty).2.1
        = [("E", 15 * nsPerMinute), ("E", 870 * nsPerSecond)] ∧
     (checkNotifications (fun _ => some 7) true
        [15 * nsPerMinute, 870 * nsPerSecond] (5 * nsPerMinute) 0 [evC10]
        TickState.empty).1.ns.busCalls = ["E"] ∧
     lookupKey (checkNotifications (fun _ => some 7) true
        [15 * nsPerMinute, 870 * nsPerSecond] (5 * nsPerMinute) 0 [evC10]
        TickState.empty).1.tickets ("E", 15 * nsPerMinute) = some 0 ∧
     lookupKey (checkNotifications (fun _ => some 7) true
        [15 * nsPerMinute, 870 * nsPerSecond] (5 * nsPerMinute) 0 [evC10]
        TickState.empty).1.tickets ("E", 870 * nsPerSecond) = some 0) := by
  constructor
  · intro bus now uid st last h1 h2 h3
    have hsup : (uid != "" &&
        (match lookupKey st.notified uid with
         | some last => decide (now - last < nsPerMinute)
         | none => false)) = true := by
      rw [h2]
      simp [h1, h3]
    simp [notifierSend, hsup]
  · exact ⟨by decide, by decide, by decide, by decide⟩

/-- C10 witness: a second send for the same uid 30 seconds after the first
is swallowed with id 0 and nil error, leaving the notifier state intact. -/
theorem notifierSend_spec_witness :
    notifierSend (fun _ => some 1) (30 * nsPerSecond) "u"
        ⟨[("u", 0)], 0, [], []⟩
      = (0, false, ⟨[("u", 0)], 0, [], []⟩) :=
  notifierSend_spec.1 (fun _ => some 1) (30 * nsPerSecond) "u"
    ⟨[("u", 0)], 0, [], []⟩ 0 (by decide) (by decide) (by decide)

end Calbar
